import Mathlib

/-!
Verification of the Service Runtime Core (Seven repository).

This file gives a shallow embedding of the concurrency substrate of the
repository — the bus-subject construction, the hot-path publisher toggle,
the graceful-shutdown sequence, the thread pool, the task scheduler and the
LRU+TTL cache — and proves or refutes the specification's claims about them.

Conventions of the embedding:
* time is modelled as `Nat` milliseconds on `std::chrono::steady_clock`;
* `std::chrono::milliseconds::max()` (the "no TTL" marker) is modelled as
  `Option.none`, a finite duration `t` as `Option.some t`;
* `TimePoint::max()` (the "never expires" expiry) is likewise `Option.none`;
* fallible operations return pairs `Bool × State` or `Option _ × State`;
* the mutex-protected operations of the source are modelled as atomic
  state transformers; interleaving-sensitive code (the scheduler dispatcher
  loop versus the worker closure) is modelled as an explicit small-step
  system over the points at which the worker may run.
-/

namespace Seven

/-! ## Bus subjects (service_host_impl.cpp)

`publish_broadcast_fast` (line 188) and `publish_broadcast_traced`
(line 252) both form the subject `"broadcast." + type_name`.
`subscribe_broadcast` (line 388) and `subscribe_broadcast_V2` (line 434)
subscribe to `"system.broadcast." + type_name`. -/

/-- Subject formed by `ServiceHost::publish_broadcast_fast`. -/
def publishBroadcastFastSubject (type_name : String) : String :=
  "broadcast." ++ type_name

/-- Subject formed by `ServiceHost::publish_broadcast_traced`. -/
def publishBroadcastTracedSubject (type_name : String) : String :=
  "broadcast." ++ type_name

/-- Subject subscribed by `ServiceHost::subscribe_broadcast` and
`ServiceHost::subscribe_broadcast_V2`. -/
def subscribeBroadcastSubject (type_name : String) : String :=
  "system.broadcast." ++ type_name

/-- Subject formed by `ServiceHost::publish_point_to_point_fast` (line 210). -/
def publishP2PFastSubject (target_uid type_name : String) : String :=
  "p2p." ++ target_uid ++ "." ++ type_name

/-- Subject subscribed by `ServiceHost::subscribe_point_to_point` (line 410). -/
def subscribeP2PSubject (uid type_name : String) : String :=
  "system.direct." ++ uid ++ "." ++ type_name

/-! ## Hot-path publisher (C6 of the spec; service_host_impl.cpp 149-170)

The host stores two member-function pointers `publish_broadcast_impl_` and
`publish_point_to_point_impl_`; `enable_tracing` / `disable_tracing`
repoint them; `publish_broadcast` / `publish_point_to_point` dispatch
through them. The constructor initialises both pointers to the fast
implementations and `tracing_enabled_ = false` (service_host.hpp 101-103).
The counters record which implementation a call dispatched to. -/

inductive PublishPath where
  | fast
  | traced
deriving DecidableEq, Repr

structure HotPathState where
  tracing_enabled : Bool
  publish_broadcast_impl : PublishPath
  publish_point_to_point_impl : PublishPath
  /-- number of calls that dispatched to a fast implementation -/
  fastCalls : Nat
  /-- number of calls that dispatched to a traced implementation -/
  tracedCalls : Nat
deriving Repr

namespace HotPathState

/-- Member-initialiser state of the `ServiceHost` constructor. -/
def ctorInit : HotPathState :=
  { tracing_enabled := false
    publish_broadcast_impl := .fast
    publish_point_to_point_impl := .fast
    fastCalls := 0
    tracedCalls := 0 }

/-- `ServiceHost::enable_tracing`. -/
def enable_tracing (h : HotPathState) : HotPathState :=
  { h with
    tracing_enabled := true
    publish_broadcast_impl := .traced
    publish_point_to_point_impl := .traced }

/-- `ServiceHost::disable_tracing`. -/
def disable_tracing (h : HotPathState) : HotPathState :=
  { h with
    tracing_enabled := false
    publish_broadcast_impl := .fast
    publish_point_to_point_impl := .fast }

/-- `ServiceHost::publish_broadcast`: one indirect call through
`publish_broadcast_impl_`; the reached implementation is accounted. -/
def publish_broadcast (h : HotPathState) : HotPathState :=
  match h.publish_broadcast_impl with
  | .fast => { h with fastCalls := h.fastCalls + 1 }
  | .traced => { h with tracedCalls := h.tracedCalls + 1 }

/-- `ServiceHost::publish_point_to_point`: one indirect call through
`publish_point_to_point_impl_`. -/
def publish_point_to_point (h : HotPathState) : HotPathState :=
  match h.publish_point_to_point_impl with
  | .fast => { h with fastCalls := h.fastCalls + 1 }
  | .traced => { h with tracedCalls := h.tracedCalls + 1 }

end HotPathState

/-! ## Shutdown sequence (service_host_impl.cpp 25-90)

`ServiceHost::shutdown` early-returns when `running_` is already false;
otherwise it sets `running_ = false`, calls `StopPermanentTasks`, stops the
configuration watcher, shuts the thread pool down, destroys the JetStream
context if present, and closes the NATS connection if present. It never
calls `scheduler_->stop()`. -/

inductive ShutdownEvent where
  | setRunningFalse
  | stopPermanentTasks
  | stopConfigWatcher
  | threadPoolShutdown
  | destroyJetStream
  | closeConnection
  | schedulerStop
deriving DecidableEq, Repr

structure HostState where
  running : Bool
  permanent_tasks_running : Bool
  config_watching : Bool
  pool_done : Bool
  js_active : Bool
  conn_active : Bool
  /-- the `ServiceScheduler::running_` flag of the host's scheduler -/
  scheduler_running : Bool
  log : List ShutdownEvent
deriving Repr

namespace HostState

/-- `ServiceHost::StopPermanentTasks` (service_host_impl.cpp 1086-1103):
skips when the flag is already false, otherwise clears the flag and cancels
the permanent maintenance task (the scheduler keeps running). -/
def stopPermanentTasks (h : HostState) : HostState :=
  if h.permanent_tasks_running then
    { h with
      permanent_tasks_running := false
      log := h.log ++ [ShutdownEvent.stopPermanentTasks] }
  else h

/-- `ServiceHost::shutdown` (service_host_impl.cpp 25-63). -/
def shutdown (h : HostState) : HostState :=
  if h.running = false then h
  else
    let h1 := { h with running := false, log := h.log ++ [ShutdownEvent.setRunningFalse] }
    let h2 := stopPermanentTasks h1
    let h3 := { h2 with
                config_watching := false
                log := h2.log ++ [ShutdownEvent.stopConfigWatcher] }
    let h4 := { h3 with
                pool_done := true
                log := h3.log ++ [ShutdownEvent.threadPoolShutdown] }
    let h5 := if h4.js_active then
                { h4 with js_active := false, log := h4.log ++ [ShutdownEvent.destroyJetStream] }
              else h4
    if h5.conn_active then
      { h5 with conn_active := false, log := h5.log ++ [ShutdownEvent.closeConnection] }
    else h5

/-- A freshly started host: running, permanent tasks on, watcher on, pool
live, JetStream and connection up, scheduler dispatcher running. -/
def started : HostState :=
  { running := true
    permanent_tasks_running := true
    config_watching := true
    pool_done := false
    js_active := true
    conn_active := true
    scheduler_running := true
    log := [] }

end HostState

/-! ## Shutdown with timeout (service_host_impl.cpp 65-90)

`shutdown_with_timeout(T)` early-returns when the host is not running.
Otherwise it records `start_time`, stores `running_ = false` (line 73),
and only then spawns a thread whose body is `shutdown()` — which
immediately takes its own `if (!running_) return;` guard (line 26), so
the spawned thread performs no shutdown step at all. The joinable check
then compares `now() - start_time` — at that point just the thread-spawn
overhead — with `T`: below `T` the (no-op) thread is joined, otherwise it
is detached. The model reuses `HostState.shutdown` (guard included) as
the body of the spawned thread and takes the spawn overhead at the check
as a parameter. -/

structure TimeoutOutcome where
  joined : Bool
  /-- host state after the call (the spawned thread's body included) -/
  final : HostState
deriving Repr

/-- `ServiceHost::shutdown_with_timeout`. `none` models the early return
when the host is not running; `elapsedAtCheck` is the wall-clock time
between `start_time` and the `joinable` check (the thread-spawn
overhead). `running_ = false` is stored before the spawn, and the thread
body is `shutdown()` on that state. -/
def shutdown_with_timeout (h : HostState) (timeout elapsedAtCheck : Nat) :
    Option TimeoutOutcome :=
  if h.running = false then none
  else
    let h1 := { h with running := false }
    let h2 := h1.shutdown
    if elapsedAtCheck < timeout then
      some { joined := true, final := h2 }
    else
      some { joined := false, final := h2 }

/-! ## Thread pool (thread_pool.hpp)

`submit` checks `done` under the queue mutex and rejects when shutting
down, otherwise enqueues (FIFO). The worker loop dequeues and runs each
task, catching every exception so that a throwing task cannot terminate its
worker. `shutdown` flips `done` once (idempotent via `exchange`) and joins
the workers, which drain the queue — they only exit when
`done ∧ queue empty`. A task is `throws := true` when running it raises;
the worker treats it identically (line 128-133). -/

structure PoolTask where
  id : Nat
  throws : Bool
deriving DecidableEq, Repr

structure ThreadPool where
  tasks : List PoolTask
  done : Bool
  /-- tasks that have been dequeued and run, in execution order -/
  executed : List PoolTask
deriving DecidableEq, Repr

namespace ThreadPool

/-- `ThreadPool::submit` (thread_pool.hpp 77-89). -/
def submit (p : ThreadPool) (t : PoolTask) : Bool × ThreadPool :=
  if p.done then (false, p)
  else (true, { p with tasks := p.tasks ++ [t] })

/-- `ThreadPool::shutdown` (thread_pool.hpp 54-76): already-shut-down pools
return immediately; otherwise the `done` flag is set and the joined workers
run every remaining queued task (exceptions contained) before exiting. -/
def shutdown (p : ThreadPool) : ThreadPool :=
  if p.done then p
  else { tasks := [], done := true, executed := p.executed ++ p.tasks }

end ThreadPool

/-! ## Scheduler, one-shot task (service_scheduler.cpp / .hpp)

`schedule_once` creates a task with `mode = ONE_TIME`, `enabled = true`,
`next_run = creation + delay` and no condition. The dispatcher loop
(scheduler_loop, lines 279-317) per iteration first collects and dispatches
every task with `should_execute()` (enabled, `now ≥ next_run`, not
running), then runs `cleanup_completed_tasks()` (remove `ONE_TIME ∧
executions > 0 ∧ ¬running`), then sleeps. `execute_task` sets
`running = true` and submits a closure to the worker pool; the closure —
running concurrently on a worker thread — increments `executions`, does
*not* re-arm `next_run` for a one-shot task, and finally sets
`running = false`. The model makes the dispatcher's two phases and the
worker's completion explicit small steps and runs the dispatcher loop with
the worker completion placed at either possible boundary. -/

structure OneShotTask where
  /-- the task is still an element of `tasks_` -/
  present : Bool
  enabled : Bool
  /-- the `running` gate of the task -/
  running : Bool
  /-- a closure has been submitted to the pool and has not finished yet -/
  pending : Bool
  executions : Nat
  next_run : Nat
deriving DecidableEq, Repr

namespace OneShotTask

/-- State of a task right after `schedule_once(name, delay, f)` called at
time 0: present, enabled, not running, `next_run = delay`. -/
def scheduleOnce (delay : Nat) : OneShotTask :=
  { present := true
    enabled := true
    running := false
    pending := false
    executions := 0
    next_run := delay }

/-- The ready-scan plus `execute_task` of one dispatcher iteration at time
`now`: when the task is present, `should_execute()` holds (enabled,
`now ≥ next_run`, not running) the task is marked running and its closure
is submitted to the pool. -/
def scanStep (now : Nat) (t : OneShotTask) : OneShotTask :=
  if t.present ∧ t.enabled ∧ t.next_run ≤ now ∧ ¬t.running then
    { t with running := true, pending := true }
  else t

/-- The worker closure finishing (service_scheduler.cpp 328-370):
`executions` is incremented; the mode is `ONE_TIME`, so
`calculate_next_run()` is *not* called; `running` is cleared. -/
def completeStep (t : OneShotTask) : OneShotTask :=
  if t.pending then
    { t with executions := t.executions + 1, running := false, pending := false }
  else t

/-- `cleanup_completed_tasks` (service_scheduler.cpp 373-385) for a
one-shot task: removed when it has executed and is not running. -/
def cleanupStep (t : OneShotTask) : OneShotTask :=
  if t.present ∧ t.executions > 0 ∧ ¬t.running then
    { t with present := false }
  else t

/-- Where, relative to one dispatcher iteration, the concurrently running
worker closure finishes (if it finishes during this iteration at all). -/
inductive WorkerTiming where
  | notYet
  | duringIteration
  | betweenIterations
deriving DecidableEq, Repr

/-- One dispatcher-loop iteration at time `now`, with the worker closure
finishing at the given point: after the ready-scan but before cleanup
(`duringIteration`), after cleanup and before the next iteration's scan
(`betweenIterations`), or not within this iteration (`notYet`). -/
def iterate (now : Nat) (w : WorkerTiming) (t : OneShotTask) : OneShotTask :=
  match w with
  | .notYet => cleanupStep (scanStep now t)
  | .duringIteration => cleanupStep (completeStep (scanStep now t))
  | .betweenIterations => completeStep (cleanupStep (scanStep now t))

/-- A run of the dispatcher loop at fixed time `now`. -/
def run (now : Nat) (ws : List WorkerTiming) (t : OneShotTask) : OneShotTask :=
  ws.foldl (fun s w => iterate now w s) t

end OneShotTask

/-! ## LRU + TTL cache (lru_cache.hpp)

The cache keeps `cache_list_` (a `std::list` of key/entry pairs, front =
most recently used) and `cache_map_` (an `unordered_map` from key to list
iterator). The model carries the list directly and, for the map, its key
domain `cache_map_keys` (the iterator values are determined by the keys);
every map mutation of the source is mirrored on `cache_map_keys`.
Durations: `Option Nat`, with `none` standing for
`std::chrono::milliseconds::max()`; expiry instants: `Option Nat` with
`none` standing for `TimePoint::max()`. -/

structure CacheEntry (V : Type) where
  value : V
  access_time : Nat
  /-- `none` models `TimePoint::max()` (never expires) -/
  expiry_time : Option Nat
deriving DecidableEq, Repr

structure LRUCache (K V : Type) where
  /-- `cache_list_`, front = most recently used -/
  cache_list : List (K × CacheEntry V)
  /-- the key domain of `cache_map_` -/
  cache_map_keys : List K
  max_size : Nat
  /-- `default_ttl_`; `none` models `milliseconds::max()` -/
  default_ttl : Option Nat
  hits : Nat
  misses : Nat
  evictions : Nat
  expirations : Nat
deriving Repr

namespace LRUCache

variable {K V : Type} [DecidableEq K]

/-- The constructor `LRUCache(max_size, default_ttl)`; it throws
`invalid_argument` when `max_size = 0`, so reachable caches have
`1 ≤ max_size`. -/
def mk1 (max_size : Nat) (default_ttl : Option Nat) : LRUCache K V :=
  { cache_list := []
    cache_map_keys := []
    max_size := max_size
    default_ttl := default_ttl
    hits := 0
    misses := 0
    evictions := 0
    expirations := 0 }

/-- The expiry test `entry.expiry_time <= now`; `TimePoint::max()` is
never reached by the clock. -/
def entryExpired (now : Nat) (e : CacheEntry V) : Bool :=
  match e.expiry_time with
  | some t => t ≤ now
  | none => false

/-- `cleanup_expired` (lru_cache.hpp 52-67): walk the list, erase every
expired node from the list and its key from the map, counting one
expiration per removed node. -/
def cleanup_expired (now : Nat) (c : LRUCache K V) : LRUCache K V :=
  let removed := c.cache_list.filter (fun kv => entryExpired now kv.2)
  { c with
    cache_list := c.cache_list.filter (fun kv => !(entryExpired now kv.2))
    cache_map_keys := removed.foldl (fun m kv => m.erase kv.1) c.cache_map_keys
    expirations := c.expirations + removed.length }

/-- `evict_lru` (lru_cache.hpp 70-78): if the list is nonempty, erase the
tail node from the list and its key from the map, and count one eviction. -/
def evict_lru (c : LRUCache K V) : LRUCache K V :=
  match c.cache_list.getLast? with
  | none => c
  | some last =>
    { c with
      cache_list := c.cache_list.dropLast
      cache_map_keys := c.cache_map_keys.erase last.1
      evictions := c.evictions + 1 }

/-- `get` (lru_cache.hpp 120-147): a missing key is a miss; an expired hit
erases the entry and counts an expiration and a miss; a live hit refreshes
`access_time`, splices the node to the front and counts a hit. -/
def get (now : Nat) (k : K) (c : LRUCache K V) : Option V × LRUCache K V :=
  if k ∈ c.cache_map_keys then
    match c.cache_list.find? (fun kv => kv.1 == k) with
    | none =>
      -- `cache_map_` holds an iterator into `cache_list_`; from a state in
      -- which the two are in sync this branch is unreachable
      (none, { c with misses := c.misses + 1 })
    | some kv =>
      if entryExpired now kv.2 then
        (none,
          { c with
            cache_list := c.cache_list.eraseP (fun kv' => kv'.1 == k)
            cache_map_keys := c.cache_map_keys.erase k
            expirations := c.expirations + 1
            misses := c.misses + 1 })
      else
        (some kv.2.value,
          { c with
            cache_list :=
              (k, { kv.2 with access_time := now }) ::
                c.cache_list.eraseP (fun kv' => kv'.1 == k)
            hits := c.hits + 1 })
  else
    (none, { c with misses := c.misses + 1 })

/-- The expiry computed by `put` (lru_cache.hpp 155-157):
`(ttl == milliseconds::max()) ? TimePoint::max() : now + ((ttl ==
milliseconds::max()) ? default_ttl_ : ttl)`. The inner conditional is in
the branch where `ttl ≠ max`, so it always resolves to `ttl` and
`default_ttl_` is dead. -/
def putExpiry (cache_default_ttl : Option Nat) (now : Nat) (ttl : Option Nat) :
    Option Nat :=
  if ttl = none then none
  else some (now + (if ttl = none then cache_default_ttl else ttl).getD 0)

/-- The expiry the spec's words assign to `put` (§4.2 TTL semantics):
without explicit TTL use the cache's `default_ttl`; `default_ttl = ∞`
means no expiry; an explicit finite TTL overrides. Stated for refinement
comparison with `putExpiry` only. -/
def specPutExpiry (cache_default_ttl : Option Nat) (now : Nat) (ttl : Option Nat) :
    Option Nat :=
  match ttl with
  | some t => some (now + t)
  | none =>
    match cache_default_ttl with
    | some d => some (now + d)
    | none => none

/-- `put` (lru_cache.hpp 150-179). An existing key is updated in place and
moved to the front. A new key, when the list is at capacity, first runs
`cleanup_expired`; if still at capacity, `evict_lru`; then the new node is
inserted at the front and its key into the map. The C++ default argument
for `ttl` is `milliseconds::max()`, i.e. `none` here. -/
def put (now : Nat) (k : K) (v : V) (ttl : Option Nat) (c : LRUCache K V) :
    LRUCache K V :=
  let expiry := putExpiry c.default_ttl now ttl
  if k ∈ c.cache_map_keys then
    (match c.cache_list.find? (fun kv => kv.1 == k) with
    | none => c -- unreachable from a state where map and list are in sync
    | some _ =>
      { c with
        cache_list :=
          (k, ⟨v, now, expiry⟩) :: c.cache_list.eraseP (fun kv => kv.1 == k) })
  else
    let c1 :=
      if c.cache_list.length ≥ c.max_size then
        let c' := cleanup_expired now c
        if c'.cache_list.length ≥ c.max_size then evict_lru c' else c'
      else c
    { c1 with
      cache_list := (k, ⟨v, now, expiry⟩) :: c1.cache_list
      cache_map_keys := k :: c1.cache_map_keys }

/-- `remove` (lru_cache.hpp 187-198). -/
def remove (k : K) (c : LRUCache K V) : Bool × LRUCache K V :=
  if k ∈ c.cache_map_keys then
    (true,
      { c with
        cache_list := c.cache_list.eraseP (fun kv => kv.1 == k)
        cache_map_keys := c.cache_map_keys.erase k })
  else (false, c)

/-- `clear` (lru_cache.hpp 201-205): empties list and map; the statistics
counters are not touched. -/
def clear (c : LRUCache K V) : LRUCache K V :=
  { c with cache_list := [], cache_map_keys := [] }

/-- `contains` (lru_cache.hpp 237-248): a pure lookup — no move-to-front,
no counter update, no erasure of an expired entry. -/
def containsKey (now : Nat) (k : K) (c : LRUCache K V) : Bool :=
  if k ∈ c.cache_map_keys then
    match c.cache_list.find? (fun kv => kv.1 == k) with
    | some kv => !(entryExpired now kv.2)
    | none => false -- unreachable from a synchronized state
  else false

/-- `size` (lru_cache.hpp 251-254). -/
def size (c : LRUCache K V) : Nat := c.cache_list.length

/-- `get_keys` (lru_cache.hpp 291-301): the keys in recency order,
front = most recently used. -/
def get_keys (c : LRUCache K V) : List K := c.cache_list.map Prod.fst

/-- The eviction loop of `resize`: `while (size > max_size) evict_lru()`,
with fuel bounded by the list length. -/
def evictLoop (c : LRUCache K V) : Nat → LRUCache K V
  | 0 => c
  | fuel + 1 =>
    if c.cache_list.length > c.max_size then evictLoop (evict_lru c) fuel else c

/-- `resize` (lru_cache.hpp 268-280): throws on `new_max_size = 0` (state
unchanged), otherwise updates the capacity and evicts from the tail until
the size fits. -/
def resize (new_max_size : Nat) (c : LRUCache K V) : LRUCache K V :=
  if new_max_size = 0 then c
  else
    let c1 := { c with max_size := new_max_size }
    evictLoop c1 c1.cache_list.length

/-- `cleanup` (lru_cache.hpp 283-288): runs `cleanup_expired` and returns
the number of removed entries. -/
def cleanup (now : Nat) (c : LRUCache K V) : Nat × LRUCache K V :=
  let c' := cleanup_expired now c
  (c.cache_list.length - c'.cache_list.length, c')

/-- The `Statistics` snapshot (lru_cache.hpp 208-234); the derived
floating-point rates are omitted. -/
structure Statistics where
  size : Nat
  max_size : Nat
  hits : Nat
  misses : Nat
  evictions : Nat
  expirations : Nat
deriving DecidableEq, Repr

/-- `get_statistics` (lru_cache.hpp 219-234). -/
def get_statistics (c : LRUCache K V) : Statistics :=
  { size := c.cache_list.length
    max_size := c.max_size
    hits := c.hits
    misses := c.misses
    evictions := c.evictions
    expirations := c.expirations }

/-- One public mutating operation of the cache interface. -/
inductive CacheOp (K V : Type) where
  | get (now : Nat) (k : K)
  | put (now : Nat) (k : K) (v : V) (ttl : Option Nat)
  | remove (k : K)
  | clear
  | cleanup (now : Nat)
  | resize (new_max_size : Nat)
deriving Repr

/-- Apply one operation, discarding the returned value. -/
def applyOp (c : LRUCache K V) : CacheOp K V → LRUCache K V
  | .get now k => (get now k c).2
  | .put now k v ttl => put now k v ttl c
  | .remove k => (remove k c).2
  | .clear => clear c
  | .cleanup now => (cleanup now c).2
  | .resize n => resize n c

/-- Apply a sequence of operations, oldest first. -/
def applyOps (c : LRUCache K V) (ops : List (CacheOp K V)) : LRUCache K V :=
  ops.foldl applyOp c

/-- The representation invariant of a reachable cache: the map's key
domain and the list's keys are the same (as a permutation), the keys are
pairwise distinct, the list fits the capacity, and the capacity is
positive (the constructor rejects `max_size = 0`). -/
def Inv (c : LRUCache K V) : Prop :=
  c.cache_map_keys.Perm (c.cache_list.map Prod.fst) ∧
  (c.cache_list.map Prod.fst).Nodup ∧
  c.cache_list.length ≤ c.max_size ∧
  1 ≤ c.max_size

instance (c : LRUCache K V) : Decidable (Inv c) := by
  unfold Inv; infer_instance

/-! ### List bookkeeping lemmas

The map `cache_map_` erases and inserts exactly the keys whose list nodes
are erased and inserted; these lemmas relate those two views. -/

theorem map_fst_eraseP (l : List (K × CacheEntry V)) (k : K) :
    (l.eraseP (fun kv => kv.1 == k)).map Prod.fst = (l.map Prod.fst).erase k := by
  rw [List.erase_eq_eraseP', List.eraseP_map]
  rfl

theorem find?_eq_some_of_mem_keys {l : List (K × CacheEntry V)} {k : K}
    (h : k ∈ l.map Prod.fst) :
    ∃ kv, l.find? (fun kv => kv.1 == k) = some kv ∧ kv.1 = k ∧ kv ∈ l := by
  obtain ⟨kv, hmem, hfst⟩ := List.mem_map.mp h
  have hsome : (l.find? (fun kv => kv.1 == k)).isSome := by
    exact List.find?_isSome.mpr ⟨kv, hmem, by simp [hfst]⟩
  obtain ⟨kv', hkv'⟩ := Option.isSome_iff_exists.mp hsome
  refine ⟨kv', hkv', ?_, List.mem_of_find?_eq_some hkv'⟩
  have := List.find?_some hkv'
  simpa using this

theorem foldl_erase_cons (a : K) (m : List K) (rs : List (K × CacheEntry V))
    (h : ∀ kv ∈ rs, kv.1 ≠ a) :
    rs.foldl (fun m kv => m.erase kv.1) (a :: m)
      = a :: rs.foldl (fun m kv => m.erase kv.1) m := by
  induction rs generalizing m with
  | nil => rfl
  | cons r rs ih =>
    have hne : ¬((a : K) == r.1) = true := by
      simp only [beq_iff_eq]
      exact fun hh => (h r (List.mem_cons_self r rs)) hh.symm
    simp only [List.foldl_cons, List.erase_cons_tail hne]
    exact ih (m.erase r.1) fun kv hkv => h kv (List.mem_cons_of_mem r hkv)

theorem foldl_erase_perm {m m' : List K} (h : m.Perm m')
    (rs : List (K × CacheEntry V)) :
    (rs.foldl (fun m kv => m.erase kv.1) m).Perm
      (rs.foldl (fun m kv => m.erase kv.1) m') := by
  induction rs generalizing m m' with
  | nil => exact h
  | cons r rs ih => exact ih (h.erase r.1)

theorem foldl_erase_filter (p : (K × CacheEntry V) → Bool)
    (l : List (K × CacheEntry V)) (h : (l.map Prod.fst).Nodup) :
    (l.filter p).foldl (fun m kv => m.erase kv.1) (l.map Prod.fst)
      = (l.filter (fun kv => !(p kv))).map Prod.fst := by
  induction l with
  | nil => rfl
  | cons a t ih =>
    simp only [List.map_cons, List.nodup_cons] at h
    obtain ⟨hnot, hnd⟩ := h
    by_cases hp : p a
    · rw [List.filter_cons_of_pos hp, List.filter_cons_of_neg (by simp [hp])]
      simp only [List.foldl_cons, List.map_cons, List.erase_cons_head]
      exact ih hnd
    · rw [List.filter_cons_of_neg (by simpa using hp),
        List.filter_cons_of_pos (by simp [hp]), List.map_cons]
      rw [List.map_cons, foldl_erase_cons]
      · rw [ih hnd]
      · intro kv hkv hfst
        exact hnot (hfst ▸ List.mem_map_of_mem Prod.fst (List.mem_of_mem_filter hkv))

/-! ### Invariant preservation -/

theorem cleanup_expired_cache_list (now : Nat) (c : LRUCache K V) :
    (cleanup_expired now c).cache_list
      = c.cache_list.filter (fun kv => !(entryExpired now kv.2)) := rfl

theorem cleanup_expired_fields (now : Nat) (c : LRUCache K V) :
    (cleanup_expired now c).max_size = c.max_size ∧
    (cleanup_expired now c).default_ttl = c.default_ttl ∧
    (cleanup_expired now c).hits = c.hits ∧
    (cleanup_expired now c).misses = c.misses ∧
    (cleanup_expired now c).evictions = c.evictions := by
  refine ⟨rfl, rfl, rfl, rfl, rfl⟩

theorem cleanup_expired_inv {c : LRUCache K V} (now : Nat) (h : Inv c) :
    Inv (cleanup_expired now c) := by
  obtain ⟨hsync, hnd, hlen, hpos⟩ := h
  refine ⟨?_, ?_, ?_, hpos⟩
  · have h1 := foldl_erase_perm (V := V) hsync
      (c.cache_list.filter (fun kv => entryExpired now kv.2))
    have h2 := foldl_erase_filter (fun kv => entryExpired now kv.2) c.cache_list hnd
    exact (h1.trans (h2 ▸ List.Perm.refl _))
  · exact List.Nodup.sublist
      ((c.cache_list.filter_sublist).map Prod.fst) hnd
  · exact le_trans (List.length_filter_le _ _) hlen

theorem cleanup_expired_keys_subset {c : LRUCache K V} (now : Nat) {x : K}
    (h : x ∈ (cleanup_expired now c).cache_list.map Prod.fst) :
    x ∈ c.cache_list.map Prod.fst := by
  exact List.Sublist.mem h ((c.cache_list.filter_sublist).map Prod.fst)

theorem cleanup_expired_sync {c : LRUCache K V} (now : Nat)
    (hsync : c.cache_map_keys.Perm (c.cache_list.map Prod.fst))
    (hnd : (c.cache_list.map Prod.fst).Nodup) :
    (cleanup_expired now c).cache_map_keys.Perm
      ((cleanup_expired now c).cache_list.map Prod.fst) ∧
    ((cleanup_expired now c).cache_list.map Prod.fst).Nodup := by
  constructor
  · have h1 := foldl_erase_perm (V := V) hsync
      (c.cache_list.filter (fun kv => entryExpired now kv.2))
    have h2 := foldl_erase_filter (fun kv => entryExpired now kv.2) c.cache_list hnd
    exact (h1.trans (h2 ▸ List.Perm.refl _))
  · exact List.Nodup.sublist ((c.cache_list.filter_sublist).map Prod.fst) hnd

theorem evict_lru_max_size (c : LRUCache K V) : (evict_lru c).max_size = c.max_size := by
  unfold evict_lru
  cases c.cache_list.getLast? <;> rfl

theorem evict_lru_default_ttl (c : LRUCache K V) :
    (evict_lru c).default_ttl = c.default_ttl := by
  unfold evict_lru
  cases c.cache_list.getLast? <;> rfl

theorem evict_lru_length_le (c : LRUCache K V) :
    (evict_lru c).cache_list.length ≤ c.cache_list.length := by
  unfold evict_lru
  cases c.cache_list.getLast? with
  | none => exact le_refl _
  | some last =>
    simp only [List.length_dropLast]
    omega

theorem evict_lru_keys_subset {c : LRUCache K V} {x : K}
    (h : x ∈ (evict_lru c).cache_list.map Prod.fst) :
    x ∈ c.cache_list.map Prod.fst := by
  revert h
  unfold evict_lru
  cases c.cache_list.getLast? with
  | none => exact id
  | some last =>
    intro h
    exact List.Sublist.mem h ((List.dropLast_sublist _).map Prod.fst)

theorem evict_lru_sync {c : LRUCache K V}
    (hsync : c.cache_map_keys.Perm (c.cache_list.map Prod.fst))
    (hnd : (c.cache_list.map Prod.fst).Nodup) :
    (evict_lru c).cache_map_keys.Perm ((evict_lru c).cache_list.map Prod.fst) ∧
    ((evict_lru c).cache_list.map Prod.fst).Nodup := by
  unfold evict_lru
  cases hg : c.cache_list.getLast? with
  | none => exact ⟨hsync, hnd⟩
  | some last =>
    have hne : c.cache_list ≠ [] := by
      intro hnil
      rw [hnil] at hg
      exact Option.noConfusion hg
    have hlast : last = c.cache_list.getLast hne := by
      have := List.getLast?_eq_getLast c.cache_list hne
      rw [hg] at this
      exact Option.some.inj this
    have hsplit : c.cache_list.dropLast ++ [c.cache_list.getLast hne] = c.cache_list :=
      List.dropLast_concat_getLast hne
    have hkeys : c.cache_list.map Prod.fst
        = c.cache_list.dropLast.map Prod.fst ++ [last.1] := by
      conv_lhs => rw [← hsplit]
      simp [hlast]
    have hnotmem : last.1 ∉ c.cache_list.dropLast.map Prod.fst := by
      intro hmem
      rw [hkeys] at hnd
      exact (List.disjoint_of_nodup_append hnd) hmem (List.mem_singleton_self _)
    refine ⟨?_, ?_⟩
    · have : (c.cache_list.map Prod.fst).erase last.1
          = c.cache_list.dropLast.map Prod.fst := by
        rw [hkeys, List.erase_append_right _ hnotmem, List.erase_cons_head,
          List.append_nil]
      calc (c.cache_map_keys.erase last.1).Perm
            ((c.cache_list.map Prod.fst).erase last.1) := hsync.erase last.1
        _ = _ := by rw [this, List.map_dropLast]
    · rw [List.map_dropLast]
      exact List.Nodup.sublist (List.dropLast_sublist _) hnd

theorem evict_lru_inv {c : LRUCache K V} (h : Inv c) : Inv (evict_lru c) := by
  obtain ⟨hsync, hnd, hlen, hpos⟩ := h
  obtain ⟨hs, hn⟩ := evict_lru_sync hsync hnd
  exact ⟨hs, hn, le_trans (evict_lru_length_le c) (by rw [evict_lru_max_size]; exact hlen),
    by rw [evict_lru_max_size]; exact hpos⟩

theorem evict_lru_length {c : LRUCache K V} (hne : c.cache_list ≠ []) :
    (evict_lru c).cache_list.length = c.cache_list.length - 1 := by
  unfold evict_lru
  cases hg : c.cache_list.getLast? with
  | none =>
    exact absurd (List.getLast?_eq_none_iff.mp hg) hne
  | some last => simp [List.length_dropLast]

theorem get_inv {c : LRUCache K V} (now : Nat) (k : K) (h : Inv c) :
    Inv (get now k c).2 := by
  obtain ⟨hsync, hnd, hlen, hpos⟩ := h
  unfold get
  by_cases hmem : k ∈ c.cache_map_keys
  · have hkeys : k ∈ c.cache_list.map Prod.fst := hsync.mem_iff.mp hmem
    obtain ⟨kv, hfind, hfst, hkvmem⟩ := find?_eq_some_of_mem_keys hkeys
    have hlpos : 0 < c.cache_list.length :=
      List.length_pos.mpr (List.ne_nil_of_mem hkvmem)
    rw [if_pos hmem, hfind]
    dsimp only
    by_cases hexp : entryExpired now kv.2
    · rw [if_pos hexp]
      refine ⟨?_, ?_, ?_, hpos⟩
      · simp only [map_fst_eraseP]
        exact hsync.erase k
      · simp only [map_fst_eraseP]
        exact hnd.erase k
      · exact le_trans (List.length_eraseP_le _) hlen
    · rw [if_neg hexp]
      refine ⟨?_, ?_, ?_, hpos⟩
      · simp only [List.map_cons, map_fst_eraseP]
        exact hsync.trans (List.perm_cons_erase hkeys)
      · simp only [List.map_cons, map_fst_eraseP]
        exact ((List.perm_cons_erase hkeys).nodup_iff).mp hnd
      · have he : (c.cache_list.eraseP (fun kv' => kv'.1 == k)).length
            = c.cache_list.length - 1 :=
          List.length_eraseP_of_mem hkvmem (by simp [hfst])
        simp only [List.length_cons, he]
        omega
  · rw [if_neg hmem]
    exact ⟨hsync, hnd, hlen, hpos⟩

theorem remove_inv {c : LRUCache K V} (k : K) (h : Inv c) :
    Inv (remove k c).2 := by
  obtain ⟨hsync, hnd, hlen, hpos⟩ := h
  unfold remove
  by_cases hmem : k ∈ c.cache_map_keys
  · rw [if_pos hmem]
    refine ⟨?_, ?_, ?_, hpos⟩
    · simp only [map_fst_eraseP]
      exact hsync.erase k
    · simp only [map_fst_eraseP]
      exact hnd.erase k
    · exact le_trans (List.length_eraseP_le _) hlen
  · rw [if_neg hmem]
    exact ⟨hsync, hnd, hlen, hpos⟩

theorem clear_inv {c : LRUCache K V} (h : Inv c) : Inv (clear c) :=
  ⟨List.Perm.refl _, List.nodup_nil, by simp [clear], h.2.2.2⟩

/-- Inserting a fresh key at the front of list and map preserves the
invariant provided the key is new and one slot is free. -/
theorem insert_new_inv (c1 : LRUCache K V) (k : K) (e : CacheEntry V)
    (hsync : c1.cache_map_keys.Perm (c1.cache_list.map Prod.fst))
    (hnd : (c1.cache_list.map Prod.fst).Nodup)
    (hknot : k ∉ c1.cache_list.map Prod.fst)
    (hlen : c1.cache_list.length + 1 ≤ c1.max_size)
    (hpos : 1 ≤ c1.max_size) :
    Inv { c1 with cache_list := (k, e) :: c1.cache_list,
                  cache_map_keys := k :: c1.cache_map_keys } := by
  refine ⟨?_, ?_, ?_, hpos⟩
  · simp only [List.map_cons]
    exact hsync.cons k
  · simp only [List.map_cons, List.nodup_cons]
    exact ⟨hknot, hnd⟩
  · simp only [List.length_cons]
    exact hlen

theorem put_inv {c : LRUCache K V} (now : Nat) (k : K) (v : V) (ttl : Option Nat)
    (h : Inv c) : Inv (put now k v ttl c) := by
  obtain ⟨hsync, hnd, hlen, hpos⟩ := h
  unfold put
  by_cases hmem : k ∈ c.cache_map_keys
  · have hkeys : k ∈ c.cache_list.map Prod.fst := hsync.mem_iff.mp hmem
    obtain ⟨kv, hfind, hfst, hkvmem⟩ := find?_eq_some_of_mem_keys hkeys
    have hlpos : 0 < c.cache_list.length :=
      List.length_pos.mpr (List.ne_nil_of_mem hkvmem)
    rw [if_pos hmem, hfind]
    dsimp only
    refine ⟨?_, ?_, ?_, hpos⟩
    · simp only [List.map_cons, map_fst_eraseP]
      exact hsync.trans (List.perm_cons_erase hkeys)
    · simp only [List.map_cons, map_fst_eraseP]
      exact ((List.perm_cons_erase hkeys).nodup_iff).mp hnd
    · have he : (c.cache_list.eraseP (fun kv' => kv'.1 == k)).length
          = c.cache_list.length - 1 :=
        List.length_eraseP_of_mem hkvmem (by simp [hfst])
      simp only [List.length_cons, he]
      omega
  · rw [if_neg hmem]
    have hknot : k ∉ c.cache_list.map Prod.fst := fun hk => hmem (hsync.mem_iff.mpr hk)
    by_cases hfull : c.cache_list.length ≥ c.max_size
    · rw [if_pos hfull]
      have hcs := cleanup_expired_sync now hsync hnd
      have hclen : (cleanup_expired now c).cache_list.length ≤ c.cache_list.length :=
        List.length_filter_le _ _
      have hcmax : (cleanup_expired now c).max_size = c.max_size := rfl
      by_cases hfull2 : (cleanup_expired now c).cache_list.length ≥ c.max_size
      · rw [if_pos hfull2]
        have hne : (cleanup_expired now c).cache_list ≠ [] := by
          intro hnil
          rw [hnil] at hfull2
          simp only [List.length_nil] at hfull2
          omega
        have hes := evict_lru_sync hcs.1 hcs.2
        have helen := evict_lru_length hne
        have hemax := evict_lru_max_size (cleanup_expired now c)
        exact insert_new_inv (evict_lru (cleanup_expired now c)) k
          ⟨v, now, putExpiry c.default_ttl now ttl⟩ hes.1 hes.2
          (fun hk => hknot (cleanup_expired_keys_subset now (evict_lru_keys_subset hk)))
          (by rw [helen, hemax, hcmax]; omega)
          (by rw [hemax, hcmax]; exact hpos)
      · rw [if_neg hfull2]
        exact insert_new_inv (cleanup_expired now c) k
          ⟨v, now, putExpiry c.default_ttl now ttl⟩ hcs.1 hcs.2
          (fun hk => hknot (cleanup_expired_keys_subset now hk))
          (by rw [hcmax]; omega)
          (by rw [hcmax]; exact hpos)
    · rw [if_neg hfull]
      exact insert_new_inv c k
        ⟨v, now, putExpiry c.default_ttl now ttl⟩ hsync hnd hknot (by omega) hpos

theorem evictLoop_sync (fuel : Nat) (c : LRUCache K V)
    (hsync : c.cache_map_keys.Perm (c.cache_list.map Prod.fst))
    (hnd : (c.cache_list.map Prod.fst).Nodup) :
    (evictLoop c fuel).cache_map_keys.Perm
      ((evictLoop c fuel).cache_list.map Prod.fst) ∧
    ((evictLoop c fuel).cache_list.map Prod.fst).Nodup ∧
    (evictLoop c fuel).max_size = c.max_size := by
  induction fuel generalizing c with
  | zero => exact ⟨hsync, hnd, rfl⟩
  | succ fuel ih =>
    unfold evictLoop
    by_cases hgt : c.cache_list.length > c.max_size
    · rw [if_pos hgt]
      have hsub := evict_lru_sync hsync hnd
      obtain ⟨h1, h2, h3⟩ := ih (evict_lru c) hsub.1 hsub.2
      exact ⟨h1, h2, by rw [h3, evict_lru_max_size]⟩
    · rw [if_neg hgt]
      exact ⟨hsync, hnd, rfl⟩

theorem evictLoop_length (fuel : Nat) (c : LRUCache K V)
    (hf : c.cache_list.length ≤ c.max_size + fuel) :
    (evictLoop c fuel).cache_list.length ≤ (evictLoop c fuel).max_size := by
  induction fuel generalizing c with
  | zero =>
    simp only [evictLoop]
    omega
  | succ fuel ih =>
    unfold evictLoop
    by_cases hgt : c.cache_list.length > c.max_size
    · rw [if_pos hgt]
      have hne : c.cache_list ≠ [] := by
        intro hnil
        rw [hnil] at hgt
        simp only [List.length_nil] at hgt
        omega
      refine ih (evict_lru c) ?_
      rw [evict_lru_length hne, evict_lru_max_size]
      omega
    · rw [if_neg hgt]
      omega

theorem resize_inv {c : LRUCache K V} (n : Nat) (h : Inv c) : Inv (resize n c) := by
  obtain ⟨hsync, hnd, hlen, hpos⟩ := h
  unfold resize
  by_cases hn : n = 0
  · rw [if_pos hn]
    exact ⟨hsync, hnd, hlen, hpos⟩
  · rw [if_neg hn]
    obtain ⟨h1, h2, h3⟩ :=
      evictLoop_sync (c.cache_list.length) { c with max_size := n } hsync hnd
    refine ⟨h1, h2, ?_, ?_⟩
    · exact evictLoop_length (c.cache_list.length) { c with max_size := n } (by simp)
    · rw [h3]
      show 1 ≤ n
      omega

theorem cleanup_inv {c : LRUCache K V} (now : Nat) (h : Inv c) :
    Inv (cleanup now c).2 := by
  have h1 := cleanup_expired_sync now h.1 h.2.1
  exact ⟨h1.1, h1.2, le_trans (List.length_filter_le _ _) h.2.2.1, h.2.2.2⟩

theorem applyOp_inv {c : LRUCache K V} (op : CacheOp K V) (h : Inv c) :
    Inv (applyOp c op) := by
  cases op with
  | get now k => exact get_inv now k h
  | put now k v ttl => exact put_inv now k v ttl h
  | remove k => exact remove_inv k h
  | clear => exact clear_inv h
  | cleanup now => exact cleanup_inv now h
  | resize n => exact resize_inv n h

theorem applyOps_inv {c : LRUCache K V} (ops : List (CacheOp K V)) (h : Inv c) :
    Inv (applyOps c ops) := by
  induction ops generalizing c with
  | nil => exact h
  | cons op ops ih => exact ih (applyOp_inv op h)

end LRUCache

/-! ## Theorems: bus subjects (claim C1) -/

/-- C1: the claim states that `publish_broadcast` publishes on
`system.broadcast.<T>` on both the fast and the traced path, matching the
subscription subject. In the source both publish paths form
`broadcast.<T>` while both subscription paths listen on
`system.broadcast.<T>`, so the published subject never matches the
subscribed one; a broadcast published by this code is not received by a
subscriber of the same code. -/
theorem broadcast_subject_mismatch :
    publishBroadcastFastSubject "Ping" = "broadcast.Ping" ∧
    publishBroadcastTracedSubject "Ping" = "broadcast.Ping" ∧
    subscribeBroadcastSubject "Ping" = "system.broadcast.Ping" ∧
    publishBroadcastFastSubject "Ping" ≠ subscribeBroadcastSubject "Ping" ∧
    publishBroadcastTracedSubject "Ping" ≠ subscribeBroadcastSubject "Ping" ∧
    (∀ t : String, publishBroadcastTracedSubject t = publishBroadcastFastSubject t) := by
  refine ⟨rfl, rfl, rfl, by decide, by decide, fun t => rfl⟩

/-! ## Theorems: hot-path toggle (claim C9) -/

/-- C9: after `enable_tracing()` the next `publish_*` call dispatches to the
traced implementation, after `disable_tracing()` to the fast one; every
publish call reaches exactly one of the two implementations (the sum of the
two accounting counters grows by exactly one per call, so no call is lost
or double-counted); and the constructor starts on the fast path. -/
theorem hot_path_toggle (h : HotPathState) :
    ((h.enable_tracing.publish_broadcast).tracedCalls = h.tracedCalls + 1 ∧
      (h.enable_tracing.publish_broadcast).fastCalls = h.fastCalls) ∧
    ((h.disable_tracing.publish_broadcast).fastCalls = h.fastCalls + 1 ∧
      (h.disable_tracing.publish_broadcast).tracedCalls = h.tracedCalls) ∧
    ((h.enable_tracing.publish_point_to_point).tracedCalls = h.tracedCalls + 1 ∧
      (h.enable_tracing.publish_point_to_point).fastCalls = h.fastCalls) ∧
    ((h.disable_tracing.publish_point_to_point).fastCalls = h.fastCalls + 1 ∧
      (h.disable_tracing.publish_point_to_point).tracedCalls = h.tracedCalls) ∧
    (h.publish_broadcast.fastCalls + h.publish_broadcast.tracedCalls
      = h.fastCalls + h.tracedCalls + 1) ∧
    (h.publish_point_to_point.fastCalls + h.publish_point_to_point.tracedCalls
      = h.fastCalls + h.tracedCalls + 1) ∧
    HotPathState.ctorInit.publish_broadcast_impl = PublishPath.fast := by
  refine ⟨⟨rfl, rfl⟩, ⟨rfl, rfl⟩, ⟨rfl, rfl⟩, ⟨rfl, rfl⟩, ?_, ?_, rfl⟩
  · cases hb : h.publish_broadcast_impl <;>
      simp [HotPathState.publish_broadcast, hb] <;> omega
  · cases hb : h.publish_point_to_point_impl <;>
      simp [HotPathState.publish_point_to_point, hb] <;> omega

/-! ## Theorems: shutdown sequence (claim C5) -/

/-- C5 counterexample: the claim states that `shutdown()` stops the
scheduler dispatcher as part of the shutdown sequence, before the bus is
closed. On a fully started host, `shutdown()` leaves the scheduler's
`running_` flag untouched and no scheduler-stop step occurs in the
sequence: `ServiceHost::shutdown` never calls `scheduler_->stop()`. -/
theorem shutdown_does_not_stop_scheduler :
    (HostState.started.shutdown).scheduler_running = true ∧
    ShutdownEvent.schedulerStop ∉ (HostState.started.shutdown).log ∧
    (HostState.started.shutdown).log =
      [ShutdownEvent.setRunningFalse, ShutdownEvent.stopPermanentTasks,
       ShutdownEvent.stopConfigWatcher, ShutdownEvent.threadPoolShutdown,
       ShutdownEvent.destroyJetStream, ShutdownEvent.closeConnection] := by
  refine ⟨rfl, by decide, rfl⟩

/-- C5 amended: every call to `shutdown()` on a running host performs, in
order: set `running = false`, stop the permanent maintenance tasks, stop
the configuration watcher, drain the worker pool, destroy the JetStream
context and close the bus connection. The scheduler dispatcher is not
stopped by `shutdown()` — its `running_` flag is left unchanged (it is
stopped only by the scheduler's own destructor, after the bus is closed). -/
theorem shutdown_sequence (h : HostState)
    (hrun : h.running = true)
    (hperm : h.permanent_tasks_running = true)
    (hjs : h.js_active = true)
    (hconn : h.conn_active = true) :
    (h.shutdown).log =
      h.log ++
      [ShutdownEvent.setRunningFalse, ShutdownEvent.stopPermanentTasks,
       ShutdownEvent.stopConfigWatcher, ShutdownEvent.threadPoolShutdown,
       ShutdownEvent.destroyJetStream, ShutdownEvent.closeConnection] ∧
    (h.shutdown).running = false ∧
    (h.shutdown).permanent_tasks_running = false ∧
    (h.shutdown).pool_done = true ∧
    (h.shutdown).conn_active = false ∧
    (h.shutdown).scheduler_running = h.scheduler_running ∧
    (∀ h' : HostState, h'.running = false → h'.shutdown = h') := by
  refine ⟨?_, ?_, ?_, ?_, ?_, ?_, ?_⟩ <;>
    first
      | (intro h' hh; simp [HostState.shutdown, hh])
      | simp [HostState.shutdown, HostState.stopPermanentTasks,
          hrun, hperm, hjs, hconn]

/-- C5 witness: the amended sequence evaluated on the fully started host. -/
theorem shutdown_sequence_witness :
    (HostState.started.shutdown).log =
      [ShutdownEvent.setRunningFalse, ShutdownEvent.stopPermanentTasks,
       ShutdownEvent.stopConfigWatcher, ShutdownEvent.threadPoolShutdown,
       ShutdownEvent.destroyJetStream, ShutdownEvent.closeConnection] ∧
    (HostState.started.shutdown).scheduler_running = true :=
  ⟨by simpa using (shutdown_sequence HostState.started rfl rfl rfl rfl).1, rfl⟩

/-! ## Theorems: shutdown with timeout (claim C6) -/

/-- C6: the claim states that `shutdown_with_timeout(T)` waits at most
`T` for the shutdown sequence, joining only when the sequence completes
within `T`. On the source, `running_` is stored false *before* the
thread spawns, so the spawned `shutdown()` early-returns through its own
`!running_` guard and the shutdown sequence never runs at all: for every
running host the final state is exactly the input with `running = false`
— permanent tasks still flagged running, pool undrained, JetStream and
bus connection still open, log unextended — and the thread is joined
precisely when the spawn overhead is below `T`, independent of any
property of the (never-executed) sequence. On a non-running host the
call is a no-op. -/
theorem shutdown_with_timeout_never_runs_sequence :
    (∀ (h : HostState) (T ε : Nat), h.running = true →
      shutdown_with_timeout h T ε =
        some { joined := decide (ε < T), final := { h with running := false } }) ∧
    (∀ (h : HostState) (T ε : Nat), h.running = false →
      shutdown_with_timeout h T ε = none) ∧
    ((shutdown_with_timeout HostState.started 5 0).map TimeoutOutcome.joined
        = some true ∧
      (shutdown_with_timeout HostState.started 5 0).map (fun o => o.final.conn_active)
        = some true ∧
      (shutdown_with_timeout HostState.started 5 0).map (fun o => o.final.pool_done)
        = some false ∧
      (shutdown_with_timeout HostState.started 5 0).map
          (fun o => o.final.permanent_tasks_running) = some true ∧
      (shutdown_with_timeout HostState.started 5 0).map (fun o => o.final.log)
        = some []) := by
  refine ⟨fun h T ε hr => ?_, fun h T ε hr => ?_, by decide, by decide, by decide,
    by decide, ?_⟩
  · unfold shutdown_with_timeout
    rw [if_neg (by simp [hr])]
    have hguard : HostState.shutdown { h with running := false }
        = { h with running := false } := by
      unfold HostState.shutdown
      rw [if_pos rfl]
    by_cases hε : ε < T
    · rw [if_pos hε]
      simp [hguard, hε]
    · rw [if_neg hε]
      simp [hguard, hε]
  · unfold shutdown_with_timeout
    rw [if_pos hr]
  · simp [shutdown_with_timeout, HostState.started, HostState.shutdown]

/-- C6 witness: the running-host clause applied to the fully started host
with `T = 5` and spawn overhead 0: the thread is joined yet the final
state keeps the bus connection open and the log empty. -/
theorem shutdown_with_timeout_never_runs_sequence_witness :
    shutdown_with_timeout HostState.started 5 0 =
      some { joined := decide (0 < 5),
             final := { HostState.started with running := false } } :=
  shutdown_with_timeout_never_runs_sequence.1 HostState.started 5 0 rfl

/-! ## Theorems: thread pool (claim C3) -/

/-- C3: `submit` after shutdown has begun returns `false` and enqueues
nothing; `shutdown` leaves no queued task behind and runs every task that
was accepted before it exactly once (the execution count of any task after
shutdown is its prior execution count plus its queued occurrences) — a
throwing task is executed and contained like any other, so no queued task
is dropped. -/
theorem thread_pool_shutdown_contract (p : ThreadPool) (t u : PoolTask) :
    (p.done = true → p.submit t = (false, p)) ∧
    ((p.shutdown).submit t).1 = false ∧
    (p.done = false →
      (p.shutdown).tasks = [] ∧
      (p.shutdown).executed.count u = p.executed.count u + p.tasks.count u) ∧
    (p.done = false → p.submit t = (true, { p with tasks := p.tasks ++ [t] })) ∧
    (p.shutdown).shutdown = p.shutdown := by
  refine ⟨fun hd => ?_, ?_, fun hd => ?_, fun hd => ?_, ?_⟩
  · simp [ThreadPool.submit, hd]
  · by_cases hd : p.done <;> simp [ThreadPool.shutdown, ThreadPool.submit, hd]
  · exact ⟨by simp [ThreadPool.shutdown, hd],
      by simp [ThreadPool.shutdown, hd, List.count_append]⟩
  · simp [ThreadPool.submit, hd]
  · by_cases hd : p.done <;> simp [ThreadPool.shutdown, hd]

/-- C3 witness: a live pool with a queued throwing task and a queued plain
task; shutdown runs both exactly once and a later submit is rejected. -/
theorem thread_pool_shutdown_contract_witness :
    let p : ThreadPool := { tasks := [⟨1, true⟩, ⟨2, false⟩], done := false, executed := [] }
    p.done = false ∧
    ((p.shutdown).submit ⟨3, false⟩).1 = false ∧
    (p.shutdown).tasks = [] ∧
    (p.shutdown).executed.count ⟨1, true⟩ = p.executed.count ⟨1, true⟩ + p.tasks.count ⟨1, true⟩ := by
  intro p
  refine ⟨rfl, (thread_pool_shutdown_contract p ⟨3, false⟩ ⟨1, true⟩).2.1, ?_, ?_⟩
  · exact ((thread_pool_shutdown_contract p ⟨3, false⟩ ⟨1, true⟩).2.2.1 rfl).1
  · exact ((thread_pool_shutdown_contract p ⟨3, false⟩ ⟨1, true⟩).2.2.1 rfl).2

/-! ## Theorems: one-shot scheduling (claim C4) -/

/-- C4: the claim states a one-shot task is executed exactly once and never
re-dispatched after its first completion. When the worker closure finishes
between the ready-scan and the cleanup of the same dispatcher iteration
(`duringIteration`), the task is indeed executed once, its `executions`
equals 1 and it is removed. But the ready-scan of an iteration runs
*before* its cleanup and `next_run` is never re-armed for a one-shot task,
so when the closure finishes after an iteration's cleanup and before the
next iteration's scan (`betweenIterations`), the next scan sees an enabled,
non-running task with `next_run ≤ now` and dispatches it a second time:
after that run `executions = 2`. The `running` gate only inhibits re-dispatch
while the closure is still in flight. -/
theorem one_shot_double_dispatch :
    (OneShotTask.run 0 [.duringIteration] (OneShotTask.scheduleOnce 0)).executions = 1 ∧
    (OneShotTask.run 0 [.duringIteration] (OneShotTask.scheduleOnce 0)).present = false ∧
    (OneShotTask.run 0 [.betweenIterations, .duringIteration]
      (OneShotTask.scheduleOnce 0)).executions = 2 ∧
    (∀ (t : OneShotTask) (now : Nat), t.running = true → t.scanStep now = t) := by
  refine ⟨by decide, by decide, by decide, fun t now hr => ?_⟩
  simp [OneShotTask.scanStep, hr]

/-- C4 witness: the double-dispatch run evaluated, and the running-gate
clause applied to a concrete in-flight task. -/
theorem one_shot_double_dispatch_witness :
    (OneShotTask.run 0 [.betweenIterations, .duringIteration]
      (OneShotTask.scheduleOnce 0)).executions = 2 ∧
    OneShotTask.scanStep 7 ⟨true, true, true, true, 0, 0⟩
      = (⟨true, true, true, true, 0, 0⟩ : OneShotTask) :=
  ⟨one_shot_double_dispatch.2.2.1,
    one_shot_double_dispatch.2.2.2 ⟨true, true, true, true, 0, 0⟩ 7 rfl⟩

/-! ## Statistics counter monotonicity (lru_cache.hpp)

No public operation ever decreases or resets a counter: the four counters
are only ever incremented (`fetch_add`). -/

namespace LRUCache

variable {K V : Type} [DecidableEq K]

/-- Componentwise ordering of the four statistics counters. -/
def StatsLe (c c' : LRUCache K V) : Prop :=
  c.hits ≤ c'.hits ∧ c.misses ≤ c'.misses ∧
  c.evictions ≤ c'.evictions ∧ c.expirations ≤ c'.expirations

theorem statsLe_refl (c : LRUCache K V) : StatsLe c c :=
  ⟨le_refl _, le_refl _, le_refl _, le_refl _⟩

theorem statsLe_trans {a b c : LRUCache K V} (h1 : StatsLe a b) (h2 : StatsLe b c) :
    StatsLe a c :=
  ⟨le_trans h1.1 h2.1, le_trans h1.2.1 h2.2.1,
   le_trans h1.2.2.1 h2.2.2.1, le_trans h1.2.2.2 h2.2.2.2⟩

theorem evict_lru_statsLe (c : LRUCache K V) : StatsLe c (evict_lru c) := by
  unfold evict_lru
  cases c.cache_list.getLast? with
  | none => exact statsLe_refl c
  | some last => exact ⟨le_refl _, le_refl _, Nat.le_succ _, le_refl _⟩

theorem cleanup_expired_statsLe (now : Nat) (c : LRUCache K V) :
    StatsLe c (cleanup_expired now c) :=
  ⟨le_refl _, le_refl _, le_refl _, Nat.le_add_right _ _⟩

theorem evictLoop_statsLe (fuel : Nat) (c : LRUCache K V) :
    StatsLe c (evictLoop c fuel) := by
  induction fuel generalizing c with
  | zero => exact statsLe_refl c
  | succ fuel ih =>
    unfold evictLoop
    by_cases hgt : c.cache_list.length > c.max_size
    · rw [if_pos hgt]
      exact statsLe_trans (evict_lru_statsLe c) (ih (evict_lru c))
    · rw [if_neg hgt]
      exact statsLe_refl c

theorem get_statsLe (now : Nat) (k : K) (c : LRUCache K V) :
    StatsLe c (get now k c).2 := by
  unfold get
  by_cases hmem : k ∈ c.cache_map_keys
  · rw [if_pos hmem]
    cases hfind : c.cache_list.find? (fun kv => kv.1 == k) with
    | none => exact ⟨le_refl _, Nat.le_succ _, le_refl _, le_refl _⟩
    | some kv =>
      dsimp only
      by_cases hexp : entryExpired now kv.2
      · rw [if_pos hexp]
        exact ⟨le_refl _, Nat.le_succ _, le_refl _, Nat.le_succ _⟩
      · rw [if_neg hexp]
        exact ⟨Nat.le_succ _, le_refl _, le_refl _, le_refl _⟩
  · rw [if_neg hmem]
    exact ⟨le_refl _, Nat.le_succ _, le_refl _, le_refl _⟩

theorem put_statsLe (now : Nat) (k : K) (v : V) (ttl : Option Nat)
    (c : LRUCache K V) : StatsLe c (put now k v ttl c) := by
  unfold put
  by_cases hmem : k ∈ c.cache_map_keys
  · rw [if_pos hmem]
    cases hfind : c.cache_list.find? (fun kv => kv.1 == k) with
    | none => exact statsLe_refl c
    | some kv => exact statsLe_refl c
  · rw [if_neg hmem]
    by_cases hfull : c.cache_list.length ≥ c.max_size
    · rw [if_pos hfull]
      by_cases hfull2 : (cleanup_expired now c).cache_list.length ≥ c.max_size
      · rw [if_pos hfull2]
        exact statsLe_trans (cleanup_expired_statsLe now c)
          (statsLe_trans (evict_lru_statsLe _)
            ⟨le_refl _, le_refl _, le_refl _, le_refl _⟩)
      · rw [if_neg hfull2]
        exact statsLe_trans (cleanup_expired_statsLe now c)
          ⟨le_refl _, le_refl _, le_refl _, le_refl _⟩
    · rw [if_neg hfull]
      exact statsLe_refl c

theorem applyOp_statsLe (c : LRUCache K V) (op : CacheOp K V) :
    StatsLe c (applyOp c op) := by
  cases op with
  | get now k => exact get_statsLe now k c
  | put now k v ttl => exact put_statsLe now k v ttl c
  | remove k =>
    unfold applyOp remove
    dsimp only
    by_cases hmem : k ∈ c.cache_map_keys
    · rw [if_pos hmem]
      exact statsLe_refl c
    · rw [if_neg hmem]
      exact statsLe_refl c
  | clear => exact statsLe_refl c
  | cleanup now => exact cleanup_expired_statsLe now c
  | resize n =>
    unfold applyOp resize
    dsimp only
    by_cases hn : n = 0
    · rw [if_pos hn]
      exact statsLe_refl c
    · rw [if_neg hn]
      exact statsLe_trans
        (⟨le_refl _, le_refl _, le_refl _, le_refl _⟩ :
          StatsLe c { c with max_size := n })
        (evictLoop_statsLe _ _)

/-! ## Theorems: cache TTL semantics (claim C2) -/

/-- C2: the claim states that `put` without an explicit TTL gives the
entry the expiry `insertion time + default_ttl`. The explicit-TTL and the
TTL = ∞ parts of the claim hold, but the default-TTL part fails on the
code: `put`'s default argument is `milliseconds::max()`, and the expiry
expression maps `ttl == max` straight to `TimePoint::max()` — the inner
conditional that mentions `default_ttl_` sits in the branch where
`ttl ≠ max` and always resolves to `ttl`, so `default_ttl_` is dead code.
On a cache with `default_ttl = 100` ms, a plain `put` at time 0 yields an
entry that never expires, and `get` at time 200 still returns the value,
where the claim requires expiry at time 100. -/
theorem put_ignores_default_ttl :
    (∀ (dflt : Option Nat) (now t : Nat), putExpiry dflt now (some t) = some (now + t)) ∧
    (∀ (dflt : Option Nat) (now : Nat), putExpiry dflt now none = none) ∧
    specPutExpiry (some 100) 0 none = some 100 ∧
    putExpiry (some 100) 0 none ≠ specPutExpiry (some 100) 0 none ∧
    ((put 0 1 "v" none (mk1 10 (some 100) : LRUCache Nat String)).cache_list.map
        (fun kv => kv.2.expiry_time) = [none]) ∧
    (get 200 1 (put 0 1 "v" none (mk1 10 (some 100) : LRUCache Nat String))).1
      = some "v" := by
  refine ⟨fun dflt now t => by simp [putExpiry], fun dflt now => by simp [putExpiry],
    rfl, by decide, by decide, by decide⟩

/-! ## Theorems: capacity eviction (claim C7) -/

/-- C7: on a cache at capacity, `put` of a new key first runs
`cleanup_expired`; when no entry is expired the cache is still full, so
exactly the recency-tail entry is evicted, `evictions` grows by one, the
new key lands at the front and the size stays at capacity. On the
capacity-3 cache with TTL = ∞, the scripted sequence put(1,a), put(2,b),
put(3,c), get(1), put(4,d) ends with MRU-order keys `[4, 1, 3]` and
`evictions = 1`. -/
theorem put_at_capacity_evicts_tail :
    (∀ (K V : Type) [DecidableEq K] (c : LRUCache K V) (now : Nat) (k : K)
        (v : V) (ttl : Option Nat),
      Inv c → c.cache_list.length = c.max_size →
      (∀ kv ∈ c.cache_list, entryExpired now kv.2 = false) →
      k ∉ c.cache_map_keys →
      get_keys (put now k v ttl c) = k :: (get_keys c).dropLast ∧
      (put now k v ttl c).evictions = c.evictions + 1 ∧
      (put now k v ttl c).cache_list.length = c.max_size) ∧
    (get_keys (applyOps (mk1 3 none : LRUCache Nat String)
        [.put 0 1 "a" none, .put 1 2 "b" none, .put 2 3 "c" none,
         .get 3 1, .put 4 4 "d" none]) = [4, 1, 3] ∧
      (applyOps (mk1 3 none : LRUCache Nat String)
        [.put 0 1 "a" none, .put 1 2 "b" none, .put 2 3 "c" none,
         .get 3 1, .put 4 4 "d" none]).evictions = 1) := by
  constructor
  · intro K V instK c now k v ttl hinv hfull hnoexp hmem
    obtain ⟨hsync, hnd, hlen, hpos⟩ := hinv
    have hclean : cleanup_expired now c = c := by
      unfold cleanup_expired
      have h1 : c.cache_list.filter (fun kv => entryExpired now kv.2) = [] := by
        rw [List.filter_eq_nil_iff]
        intro kv hkv
        simp [hnoexp kv hkv]
      have h2 : c.cache_list.filter (fun kv => !(entryExpired now kv.2)) = c.cache_list :=
        List.filter_eq_self.mpr fun kv hkv => by simp [hnoexp kv hkv]
      simp [h1, h2]
    have hne : c.cache_list ≠ [] := by
      intro hnil
      rw [hnil] at hfull
      simp only [List.length_nil] at hfull
      omega
    obtain ⟨lastv, hg⟩ := Option.isSome_iff_exists.mp (List.getLast?_isSome.mpr hne)
    have hlpos : 0 < c.cache_list.length := List.length_pos.mpr hne
    unfold put
    rw [if_neg hmem, if_pos (le_of_eq hfull.symm)]
    rw [hclean, if_pos (le_of_eq hfull.symm)]
    simp only [evict_lru, hg]
    refine ⟨?_, ?_, ?_⟩
    · simp [get_keys, List.map_dropLast]
    · trivial
    · simp only [List.length_cons, List.length_dropLast]
      omega
  · exact ⟨by decide, by decide⟩

/-- C7 witness: the general at-capacity clause applied to the concrete
full cache `[3, 2, 1]` (all entries with TTL = ∞). -/
theorem put_at_capacity_evicts_tail_witness :
    get_keys (put 4 4 "d" none (applyOps (mk1 3 none : LRUCache Nat String)
        [.put 0 1 "a" none, .put 1 2 "b" none, .put 2 3 "c" none])) =
      4 :: (get_keys (applyOps (mk1 3 none : LRUCache Nat String)
        [.put 0 1 "a" none, .put 1 2 "b" none, .put 2 3 "c" none])).dropLast ∧
    (put 4 4 "d" none (applyOps (mk1 3 none : LRUCache Nat String)
        [.put 0 1 "a" none, .put 1 2 "b" none, .put 2 3 "c" none])).evictions =
      (applyOps (mk1 3 none : LRUCache Nat String)
        [.put 0 1 "a" none, .put 1 2 "b" none, .put 2 3 "c" none]).evictions + 1 := by
  have h := put_at_capacity_evicts_tail.1 Nat String
    (applyOps (mk1 3 none : LRUCache Nat String)
      [.put 0 1 "a" none, .put 1 2 "b" none, .put 2 3 "c" none])
    4 4 "d" none (by decide) (by decide) (by decide) (by decide)
  exact ⟨h.1, h.2.1⟩

/-! ## Theorems: cache structural invariants (claim C8) -/

/-- C8: after any finite sequence of public cache operations starting from
a freshly constructed cache (or any state satisfying the representation
invariant), the size never exceeds the capacity, the size equals the
length of `keys_snapshot` (`get_keys`), and the recency list and the key
index hold exactly the same keys (the map's key domain is a permutation of
the list's keys, which are pairwise distinct). -/
theorem cache_sequence_invariants {K V : Type} [DecidableEq K]
    (c0 : LRUCache K V) (ops : List (CacheOp K V)) (h : Inv c0) :
    size (applyOps c0 ops) ≤ (applyOps c0 ops).max_size ∧
    size (applyOps c0 ops) = (get_keys (applyOps c0 ops)).length ∧
    (applyOps c0 ops).cache_map_keys.Perm (get_keys (applyOps c0 ops)) ∧
    (get_keys (applyOps c0 ops)).Nodup := by
  obtain ⟨hsync, hnd, hlen, hpos⟩ := applyOps_inv ops h
  exact ⟨hlen, (List.length_map _ _).symm, hsync, hnd⟩

/-- C8 witness: the invariant conclusions evaluated after a concrete
sequence of put, get and remove operations on a capacity-2 cache. -/
theorem cache_sequence_invariants_witness :
    size (applyOps (mk1 2 none : LRUCache Nat String)
        [.put 0 1 "a" none, .put 1 2 "b" none, .get 2 1,
         .put 3 3 "c" (some 5), .remove 3, .put 4 4 "d" none]) ≤
      (applyOps (mk1 2 none : LRUCache Nat String)
        [.put 0 1 "a" none, .put 1 2 "b" none, .get 2 1,
         .put 3 3 "c" (some 5), .remove 3, .put 4 4 "d" none]).max_size ∧
    size (applyOps (mk1 2 none : LRUCache Nat String)
        [.put 0 1 "a" none, .put 1 2 "b" none, .get 2 1,
         .put 3 3 "c" (some 5), .remove 3, .put 4 4 "d" none]) =
      (get_keys (applyOps (mk1 2 none : LRUCache Nat String)
        [.put 0 1 "a" none, .put 1 2 "b" none, .get 2 1,
         .put 3 3 "c" (some 5), .remove 3, .put 4 4 "d" none])).length ∧
    (applyOps (mk1 2 none : LRUCache Nat String)
        [.put 0 1 "a" none, .put 1 2 "b" none, .get 2 1,
         .put 3 3 "c" (some 5), .remove 3, .put 4 4 "d" none]).cache_map_keys.Perm
      (get_keys (applyOps (mk1 2 none : LRUCache Nat String)
        [.put 0 1 "a" none, .put 1 2 "b" none, .get 2 1,
         .put 3 3 "c" (some 5), .remove 3, .put 4 4 "d" none])) ∧
    (get_keys (applyOps (mk1 2 none : LRUCache Nat String)
        [.put 0 1 "a" none, .put 1 2 "b" none, .get 2 1,
         .put 3 3 "c" (some 5), .remove 3, .put 4 4 "d" none])).Nodup :=
  cache_sequence_invariants (mk1 2 none)
    [.put 0 1 "a" none, .put 1 2 "b" none, .get 2 1,
     .put 3 3 "c" (some 5), .remove 3, .put 4 4 "d" none] (by decide)

/-! ## Theorems: clear and the statistics counters (claim C10) -/

/-- C10: `clear()` empties the cache (size 0) while leaving all four
statistics counters exactly as they were, and no public operation ever
decreases a counter — statistics are monotone accumulators that survive
`clear` and every other interface operation. -/
theorem clear_keeps_statistics {K V : Type} [DecidableEq K]
    (c : LRUCache K V) (op : CacheOp K V) :
    size (clear c) = 0 ∧
    (get_statistics (clear c)).hits = (get_statistics c).hits ∧
    (get_statistics (clear c)).misses = (get_statistics c).misses ∧
    (get_statistics (clear c)).evictions = (get_statistics c).evictions ∧
    (get_statistics (clear c)).expirations = (get_statistics c).expirations ∧
    (get_statistics c).hits ≤ (get_statistics (applyOp c op)).hits ∧
    (get_statistics c).misses ≤ (get_statistics (applyOp c op)).misses ∧
    (get_statistics c).evictions ≤ (get_statistics (applyOp c op)).evictions ∧
    (get_statistics c).expirations ≤ (get_statistics (applyOp c op)).expirations := by
  obtain ⟨h1, h2, h3, h4⟩ := applyOp_statsLe c op
  exact ⟨rfl, rfl, rfl, rfl, rfl, h1, h2, h3, h4⟩

end LRUCache

end Seven
